import Mathlib

/-!
Verification development for the therealssj/wallet ledger engine.

The engine under study is the `iko` package (`src/iko/blockchain.go`):
a single-authority ledger tracking ownership of uniquely identified
assets ("kitties") through a chain log (ChainDB) and a materialized
ownership projection (StateDB).  The collaborator types that the repo
keeps outside of the given sources (Transaction with its Verify and
IsKittyGen methods, the ChainDB and StateDB contracts, the cipher
library) are modelled from the specification, as indicated on each
definition.  Machine integers are modelled as Nat, with an explicit
mod 2^64 where Go's uint64 wrap-around matters.
-/

/-- Error kinds of the ledger (spec section 7), plus two constructors that
make Go runtime behaviour explicit in the model: nilDeref stands for a nil
pointer dereference panic, and invalidPubKey for the cipher library's
public-key well-formedness failure. -/
inductive Err where
  | notFound
  | unauthorizedCreation
  | invalidSignature
  | staleReference
  | duplicateAsset
  | staleOwnership
  | invalidPubKey
  | nilDeref
deriving DecidableEq

/-- Modelled from the spec: the Transaction data entity (spec section 3).
KittyID identifies the asset, In is the hash of the transaction being spent
(0 for a creation transaction's empty input), Out the new owning address,
Sig the signature.  Addresses, hashes and signatures are symbolic Nat
values; the sequence number is not a field because it is the transaction's
position in the chain log. -/
structure Transaction where
  KittyID : Nat
  In : Nat
  Out : Nat
  Sig : Nat
deriving DecidableEq

/-- Modelled from the spec: the signed content of a transaction, an
injective encoding of the fields covered by the signature. -/
def signedContent (tx : Transaction) : Nat :=
  Nat.pair tx.KittyID (Nat.pair tx.In tx.Out)

/-- Modelled from the spec: the content hash of a transaction, a
deterministic injective function of all its fields (spec section 3).  The
In field is the right component of the outer pairing, which keeps a
transaction's hash strictly greater than its own input reference, and the
+1 keeps every hash distinct from the empty reference 0. -/
def Transaction.Hash (tx : Transaction) : Nat :=
  Nat.pair (Nat.pair tx.KittyID (Nat.pair tx.Out tx.Sig)) tx.In + 1

/-- Modelled from the spec: signature validity under an address/key.  The
external cipher scheme is modelled symbolically: a signature is valid under
signer a exactly when it is the pairing of a with the signed content. -/
def sigValidUnder (tx : Transaction) (a : Nat) : Bool :=
  tx.Sig == Nat.pair a (signedContent tx)

/-- Modelled from the spec: Transaction.IsKittyGen — a creation-shaped
transaction: empty input reference and signature valid under the issuer
public key (spec sections 4.1 rule 2 and the glossary). -/
def Transaction.IsKittyGen (tx : Transaction) (pk : Nat) : Bool :=
  tx.In == 0 && sigValidUnder tx pk

/-- Modelled from the spec: Transaction.Verify (spec section 4.1).  Rule 1
(hash recomputation) is implicit here because the model computes the hash
from the fields rather than storing a claimed copy.  With no unspent
predecessor the candidate must be a creation transaction signed by the
issuer, else UnauthorizedCreation; with a predecessor the input reference
must equal the predecessor's hash (else StaleReference, checked first) and
the signature must be valid under the owner recorded in the predecessor's
output (else InvalidSignature). -/
def Transaction.Verify (tx : Transaction) (unspent : Option Transaction)
    (pk : Nat) : Except Err Unit :=
  match unspent with
  | none =>
    if tx.IsKittyGen pk then .ok () else .error .unauthorizedCreation
  | some prev =>
    if tx.In == prev.Hash then
      if sigValidUnder tx prev.Out then .ok () else .error .invalidSignature
    else .error .staleReference

/-- Modelled from the spec: the per-asset ownership record of the
projection — current owner and hash of the current unspent transaction
(spec section 3). -/
structure KittyState where
  owner : Nat
  unspent : Nat
deriving DecidableEq

/-- Association-list lookup keyed by Nat, used by the projection model. -/
def lookupA {α : Type} (l : List (Nat × α)) (k : Nat) : Option α :=
  (l.find? (fun p => p.1 == k)).map (fun p => p.2)

/-- Association-list update of an existing key. -/
def setA {α : Type} (l : List (Nat × α)) (k : Nat) (v : α) : List (Nat × α) :=
  l.map (fun p => if p.1 == k then (k, v) else p)

/-- Modelled from the spec: the StateDB ownership projection — per-asset
ownership records and per-address held-asset records, kept in lock-step
(spec sections 3 and 4.3). -/
structure StateDB where
  kitties : List (Nat × KittyState)
  addrs : List (Nat × List Nat)
deriving DecidableEq

def emptyState : StateDB := ⟨[], []⟩

/-- Modelled from the spec: StateDB.GetKittyState. -/
def GetKittyState (s : StateDB) (k : Nat) : Option KittyState :=
  lookupA s.kitties k

/-- Modelled from the spec: StateDB.GetKittyUnspentTx — the hash of the
asset's current unspent transaction, when the asset has a record. -/
def GetKittyUnspentTx (s : StateDB) (k : Nat) : Option Nat :=
  (GetKittyState s k).map (fun ks => ks.unspent)

/-- Add an asset id to an address's held-asset record. -/
def addAsset (l : List (Nat × List Nat)) (a k : Nat) : List (Nat × List Nat) :=
  match lookupA l a with
  | none => (a, [k]) :: l
  | some ks => setA l a (k :: ks)

/-- Remove an asset id from an address's held-asset record. -/
def removeAsset (l : List (Nat × List Nat)) (a k : Nat) : List (Nat × List Nat) :=
  match lookupA l a with
  | none => l
  | some ks => setA l a (ks.filter (fun x => !(x == k)))

/-- Modelled from the spec: StateDB.AddKitty — records a newly created
asset with its owner and unspent hash; fails with DuplicateAsset if the
asset already has a record (spec section 4.3). -/
def AddKitty (s : StateDB) (h k out : Nat) : Except Err StateDB :=
  match GetKittyState s k with
  | some _ => .error .duplicateAsset
  | none => .ok ⟨(k, ⟨out, h⟩) :: s.kitties, addAsset s.addrs out k⟩

/-- Modelled from the spec: StateDB.MoveKitty — transfers an asset from
its recorded owner to a new owner and advances the unspent hash; fails
with StaleOwnership if the asset is unknown or the live owner does not
match the expected prior owner (spec section 4.3). -/
def MoveKitty (s : StateDB) (h k fromA toA : Nat) : Except Err StateDB :=
  match GetKittyState s k with
  | none => .error .staleOwnership
  | some ks =>
    if ks.owner == fromA then
      .ok ⟨setA s.kitties k ⟨toA, h⟩,
           addAsset (removeAsset s.addrs fromA k) toA k⟩
    else .error .staleOwnership

/-- Modelled from the spec: ChainDB.GetTxOfHash — hash-indexed lookup in
the chain log (spec section 4.2). -/
def GetTxOfHash (chain : List Transaction) (h : Nat) : Except Err Transaction :=
  match chain.find? (fun t => t.Hash == h) with
  | some t => .ok t
  | none => .error .notFound

/-- Modelled from the spec: ChainDB.GetTxOfSeq — sequence-indexed lookup
in the chain log; a transaction's sequence number is its position. -/
def GetTxOfSeq (chain : List Transaction) (i : Nat) : Except Err Transaction :=
  match chain.get? i with
  | some t => .ok t
  | none => .error .notFound

/-- Modelled from the spec: ChainDB.GetTxsOfSeqRange — a finite range of
transactions starting at a sequence number; returns fewer than count items
when the range exceeds the log length, never an error for that reason
(spec section 4.2). -/
def GetTxsOfSeqRange (chain : List Transaction) (start count : Nat) : List Transaction :=
  (chain.drop start).take count

/-- Observable events of one injection, used to state ordering properties:
the verification step, a successful projection application, and the
physical append to the chain log. -/
inductive Ev where
  | verify
  | applyProj
  | append
deriving DecidableEq

/-- The branch of the transaction checker that runs once the unspent
predecessor option is in hand (iko/blockchain.go, MakeTxChecker body after
the lookup).  Verification comes first; a generation transaction is then
recorded with AddKitty, and any other transaction is moved with MoveKitty
reading the predecessor's output — the Go code dereferences the unspent
pointer there, so the none case of that dereference is modelled as the
explicit nilDeref panic.  The event list records, in execution order, the
verification and any successful projection application. -/
def checkerCore (pk : Nat) (st : StateDB) (tx : Transaction)
    (unspent : Option Transaction) : List Ev × Except Err StateDB :=
  match tx.Verify unspent pk with
  | .error e => ([.verify], .error e)
  | .ok _ =>
    if tx.IsKittyGen pk then
      match AddKitty st tx.Hash tx.KittyID tx.Out with
      | .error e => ([.verify], .error e)
      | .ok st' => ([.verify, .applyProj], .ok st')
    else
      match unspent with
      | none => ([.verify], .error .nilDeref)
      | some u =>
        match MoveKitty st tx.Hash tx.KittyID u.Out tx.Out with
        | .error e => ([.verify], .error e)
        | .ok st' => ([.verify, .applyProj], .ok st')

/-- iko/blockchain.go, MakeTxChecker: look up the asset's current unspent
transaction hash in the projection, fetch that transaction from the chain
log by hash (its failure aborts the check), and hand the resulting
optional predecessor to the verification-and-apply branch. -/
def MakeTxChecker (pk : Nat) (chain : List Transaction) (st : StateDB)
    (tx : Transaction) : List Ev × Except Err StateDB :=
  match GetKittyUnspentTx st tx.KittyID with
  | none => checkerCore pk st tx none
  | some h =>
    match GetTxOfHash chain h with
    | .error e => ([], .error e)
    | .ok u => checkerCore pk st tx (some u)

/-- The checker's result without its event trace. -/
def runChecker (pk : Nat) (chain : List Transaction) (st : StateDB)
    (tx : Transaction) : Except Err StateDB :=
  (MakeTxChecker pk chain st tx).2

/-- The pure state of the iko BlockChain: the issuer public key from its
config, the chain log and the ownership projection. -/
structure BC where
  pk : Nat
  chain : List Transaction
  state : StateDB
deriving DecidableEq

/-- Modelled from the spec: ChainDB.AddTx — the validation hook is invoked
with the candidate transaction before the physical append and must succeed
for the append to occur (spec section 4.2).  The hook here is exactly
MakeTxChecker, as in iko InjectTx; its successful run already carries the
projection update, and the append event follows it. -/
def AddTx (bc : BC) (tx : Transaction) : List Ev × Except Err BC :=
  match MakeTxChecker bc.pk bc.chain bc.state tx with
  | (tr, .error e) => (tr, .error e)
  | (tr, .ok st') => (tr ++ [.append], .ok ⟨bc.pk, bc.chain ++ [tx], st'⟩)

/-- iko/blockchain.go, InjectTx with its event trace: under the exclusive
lock it is exactly ChainDB.AddTx with MakeTxChecker as the hook. -/
def InjectTxTr (bc : BC) (tx : Transaction) : List Ev × Except Err BC :=
  AddTx bc tx

/-- iko/blockchain.go, InjectTx: the injection result. -/
def InjectTx (bc : BC) (tx : Transaction) : Except Err BC :=
  (InjectTxTr bc tx).2

/-- The engine state after an injection attempt: the new state on success,
the unchanged engine on a rejected injection (the Go method mutates
nothing on the rejection paths). -/
def applyInject (bc : BC) (tx : Transaction) : BC :=
  match InjectTx bc tx with
  | .ok bc' => bc'
  | .error _ => bc

/-- Fail-fast replay of a list of transactions through the checker against
a fixed chain log, threading the projection. -/
def replayList (pk : Nat) (chain : List Transaction) :
    StateDB → List Transaction → Except Err StateDB
  | st, [] => .ok st
  | st, t :: r =>
    match runChecker pk chain st t with
    | .error e => .error e
    | .ok st' => replayList pk chain st' r

/-- iko/blockchain.go, InitState: replay the chain log from sequence 1 to
length-1 inclusive, running MakeTxChecker on each transaction in order and
stopping at the first failure. -/
def InitState (pk : Nat) (chain : List Transaction) (st : StateDB) :
    Except Err StateDB :=
  replayList pk chain st (chain.drop 1)

/-- Sequential injection of a list of candidate transactions, stopping at
the first rejection. -/
def injectAll : BC → List Transaction → Except Err BC
  | bc, [] => .ok bc
  | bc, t :: r =>
    match InjectTx bc t with
    | .error e => .error e
    | .ok bc₁ => injectAll bc₁ r

/-- Modelled from the spec: cipher.PubKey.Verify — the external cipher
library's public-key well-formedness check, represented as a decidable
validity predicate on symbolic keys with 0 the sole malformed key. -/
def PubKeyVerify (pk : Nat) : Except Err Unit :=
  if pk = 0 then .error .invalidPubKey else .ok ()

/-- The no-op side-effect hook installed by Prepare when none is given. -/
def noopTxAction : Transaction → Except Err Unit := fun _ => .ok ()

/-- iko/blockchain.go, BlockChainConfig: issuer public key and optional
side-effect hook; the hook being none models a nil Go function value. -/
structure BlockChainConfig where
  CreatorPK : Nat
  TxAction : Option (Transaction → Except Err Unit)

/-- iko/blockchain.go, BlockChainConfig.Prepare: a nil TxAction is replaced
by a no-op hook, then the issuer public key is verified. -/
def Prepare (cfg : BlockChainConfig) : Except Err BlockChainConfig :=
  match cfg.TxAction with
  | none =>
    match PubKeyVerify cfg.CreatorPK with
    | .error e => .error e
    | .ok _ => .ok ⟨cfg.CreatorPK, some noopTxAction⟩
  | some a =>
    match PubKeyVerify cfg.CreatorPK with
    | .error e => .error e
    | .ok _ => .ok ⟨cfg.CreatorPK, some a⟩

/-- The constructed engine: the prepared config together with the chain
log and the replayed projection. -/
structure Engine where
  c : BlockChainConfig
  chain : List Transaction
  state : StateDB

/-- iko/blockchain.go, NewBlockChain: prepare the config, replay the
persisted log through InitState, and only on success produce an engine
(whose dispatcher then starts); any prepare or replay failure yields an
error and no engine. -/
def NewBlockChain (cfg : BlockChainConfig) (chain : List Transaction)
    (st : StateDB) : Except Err Engine :=
  match Prepare cfg with
  | .error e => .error e
  | .ok cfg' =>
    match InitState cfg'.CreatorPK chain st with
    | .error e => .error e
    | .ok st' => .ok ⟨cfg', chain, st'⟩

/-- iko/blockchain.go, totalPageCount: the Go function computes len %
pageSize and len / pageSize with no zero guard; a zero pageSize is an
integer division by zero, a Go runtime panic, modelled as none. -/
def totalPageCount (len pageSize : Nat) : Option Nat :=
  if pageSize = 0 then none
  else if len % pageSize = 0 then some (len / pageSize)
  else some (len / pageSize + 1)

/-- iko/blockchain.go, PaginatedTransactions. -/
structure PaginatedTransactions where
  TotalPageCount : Nat
  Transactions : List Transaction
deriving DecidableEq

/-- iko/blockchain.go, GetTransactionPage: fetch the range starting at
uint64(perPage*currentPage) — the product wraps at 2^64 — of at most
perPage transactions (the range fetch never errors, per the spec's range
contract), then compute the total page count; the none result models the
division-by-zero panic reached when perPage is zero. -/
def GetTransactionPage (chain : List Transaction) (currentPage perPage : Nat) :
    Option PaginatedTransactions :=
  let txs := GetTxsOfSeqRange chain ((perPage * currentPage) % 2 ^ 64) perPage
  match totalPageCount chain.length perPage with
  | none => none
  | some n => some ⟨n, txs⟩

/-- The observable state of the background dispatcher (iko/blockchain.go,
service): whether the quit channel has been closed, whether the dispatcher
goroutine has returned, and the commit notifications queued on the chain
log's transaction channel. -/
structure DispState where
  quitClosed : Bool
  returned : Bool
  pending : List Transaction
deriving DecidableEq

/-- iko/blockchain.go, Close: it closes the quit channel and returns at
once — the method body contains no wait on the dispatcher's WaitGroup, so
the state after Close returns is exactly this one. -/
def CloseBC (s : DispState) : DispState :=
  ⟨true, s.returned, s.pending⟩

/-- One scheduling step of the dispatcher's select loop: while the
goroutine has not returned it may take the quit branch once the quit
channel is closed, or receive and process a queued commit notification —
Go's select chooses either branch when both are ready. -/
inductive DispStep : DispState → DispState → Prop
  | quit {s : DispState} :
      s.returned = false → s.quitClosed = true →
      DispStep s ⟨s.quitClosed, true, s.pending⟩
  | recv {s : DispState} (t : Transaction) (rest : List Transaction) :
      s.returned = false → s.pending = t :: rest →
      DispStep s ⟨s.quitClosed, s.returned, rest⟩

/-- The ordering property claimed of injection traces: every successful
projection application is preceded by a physical append. -/
def projOnlyAfterAppend (tr : List Ev) : Prop :=
  ∀ pre t post, tr = pre ++ t :: post → t = Ev.applyProj → Ev.append ∈ pre

/-- The fetch of the candidate asset's unspent predecessor, exactly as the
checker performs it: the projection names the unspent hash and the chain
log resolves it; none when the asset has no record. -/
def unspentPredecessor (bc : BC) (k : Nat) : Except Err (Option Transaction) :=
  match GetKittyUnspentTx bc.state k with
  | none => .ok none
  | some h =>
    match GetTxOfHash bc.chain h with
    | .error e => .error e
    | .ok u => .ok (some u)

deriving instance DecidableEq for Except

/-! ### Helper lemmas -/

theorem find?_append_left {α : Type} (p : α → Bool) (l l' : List α) (a : α)
    (h : l.find? p = some a) : (l ++ l').find? p = some a := by
  induction l with
  | nil => simp [List.find?] at h
  | cons x xs ih =>
    rw [List.cons_append]
    rw [List.find?] at h ⊢
    cases hx : p x with
    | true => simpa [hx] using h
    | false =>
      rw [hx] at h
      simpa [hx] using ih h

theorem find?_pred {α : Type} (p : α → Bool) (l : List α) (a : α)
    (h : l.find? p = some a) : p a = true := by
  induction l with
  | nil => simp [List.find?] at h
  | cons x xs ih =>
    rw [List.find?] at h
    cases hx : p x with
    | true => rw [hx] at h; cases h; exact hx
    | false => rw [hx] at h; exact ih h

theorem find?_exists_of_mem {α : Type} (p : α → Bool) (l : List α) (a : α)
    (ha : a ∈ l) (hp : p a = true) : ∃ b, l.find? p = some b := by
  induction l with
  | nil => cases ha
  | cons x xs ih =>
    rw [List.find?]
    cases hx : p x with
    | true => exact ⟨x, rfl⟩
    | false =>
      cases ha with
      | head => rw [hp] at hx; cases hx
      | tail _ hmem => exact ih hmem

theorem In_lt_Hash (tx : Transaction) : tx.In < tx.Hash :=
  Nat.lt_succ_of_le (Nat.right_le_pair _ _)

theorem lookupA_setA {α : Type} (l : List (Nat × α)) (k : Nat) (v x : α)
    (h : lookupA l k = some x) : lookupA (setA l k v) k = some v := by
  induction l with
  | nil => simp [lookupA, List.find?] at h
  | cons q t ih =>
    cases hq : q.1 == k with
    | true => simp [lookupA, setA, List.find?, hq]
    | false =>
      rw [lookupA, List.find?, hq] at h
      have h' : lookupA t k = some x := h
      have ihr := ih h'
      rw [setA, List.map, lookupA, List.find?]
      simp only [hq, Bool.false_eq_true, if_false]
      exact ihr

theorem MoveKitty_ok_lookup {s : StateDB} {h k f t : Nat} {s' : StateDB}
    (hm : MoveKitty s h k f t = .ok s') :
    GetKittyState s' k = some ⟨t, h⟩ := by
  unfold MoveKitty at hm
  split at hm
  · cases hm
  · next ks hks =>
    split at hm
    · cases hm
      exact lookupA_setA _ _ _ _ hks
    · cases hm

theorem AddKitty_err_of_present {s : StateDB} {h k o : Nat} {ks : KittyState}
    (hks : GetKittyState s k = some ks) :
    AddKitty s h k o = .error .duplicateAsset := by
  unfold AddKitty
  rw [hks]

/-- Elimination of a successful injection into its checker run and append. -/
theorem InjectTx_ok_elim {bc : BC} {tx : Transaction} {bc' : BC}
    (h : InjectTx bc tx = .ok bc') :
    ∃ st', runChecker bc.pk bc.chain bc.state tx = .ok st' ∧
      bc' = ⟨bc.pk, bc.chain ++ [tx], st'⟩ := by
  unfold InjectTx InjectTxTr AddTx at h
  rcases hc : MakeTxChecker bc.pk bc.chain bc.state tx with ⟨tr, r⟩
  rw [hc] at h
  cases r with
  | error e => cases h
  | ok st' =>
    refine ⟨st', ?_, ?_⟩
    · rw [runChecker, hc]
    · cases h; rfl

/-- A rejected injection yields the same error through InjectTx. -/
theorem InjectTx_err_elim {bc : BC} {tx : Transaction} {e : Err}
    (h : runChecker bc.pk bc.chain bc.state tx = .error e) :
    InjectTx bc tx = .error e := by
  unfold InjectTx InjectTxTr AddTx
  rcases hc : MakeTxChecker bc.pk bc.chain bc.state tx with ⟨tr, r⟩
  rw [runChecker, hc] at h
  cases r with
  | error e' => cases h; rfl
  | ok st' => cases h

/-! ### Concrete fixtures -/

/-- A transaction over asset k with input reference i and new owner o,
signed by signer a under the symbolic signature scheme. -/
def signTx (a k i o : Nat) : Transaction :=
  ⟨k, i, o, Nat.pair a (Nat.pair k (Nat.pair i o))⟩

/-- A creation transaction of kitty 1 to address 7, signed by issuer 5. -/
def txG : Transaction := signTx 5 1 0 7

/-- The empty engine with issuer key 5. -/
def bc0 : BC := ⟨5, [], emptyState⟩

/-- The engine after injecting the creation of kitty 1. -/
def bc1 : BC := ⟨5, [txG], ⟨[(1, ⟨7, txG.Hash⟩)], [(7, [1])]⟩⟩

/-- A transfer of kitty 1 from owner 7 to 8, spending the creation. -/
def tx1 : Transaction := signTx 7 1 txG.Hash 8

/-- The engine after the transfer tx1 advanced kitty 1's unspent pointer. -/
def bc2 : BC := ⟨5, [txG, tx1], ⟨[(1, ⟨8, tx1.Hash⟩)], [(8, [1]), (7, [])]⟩⟩

/-- A second transfer of kitty 1 signed by the old owner 7, still spending
the creation transaction's hash (a stale reference once tx1 is accepted). -/
def tx2 : Transaction := signTx 7 1 txG.Hash 9

/-- A creation-shaped transaction whose signature is not the issuer's. -/
def txBad : Transaction := ⟨1, 0, 7, 0⟩

/-- A chain of 25 placeholder transactions, for the pagination claims. -/
def chain25 : List Transaction := (List.range 25).map (fun i => ⟨i, 0, 0, 0⟩)

/-! ### Pagination -/

theorem totalPageCount_eq_ceil (L p : Nat) (hp : 0 < p) :
    totalPageCount L p = some ((L + p - 1) / p) := by
  have hp0 : p ≠ 0 := Nat.pos_iff_ne_zero.mp hp
  have hqr : p * (L / p) + L % p = L := Nat.div_add_mod L p
  have hrlt : L % p < p := Nat.mod_lt _ hp
  unfold totalPageCount
  rw [if_neg hp0]
  by_cases hr : L % p = 0
  · rw [if_pos hr]
    have h1 : L + p - 1 = p * (L / p) + (p - 1) := by omega
    have h3 : (p - 1) / p = 0 := Nat.div_eq_of_lt (by omega)
    have h2 : (L + p - 1) / p = L / p := by
      rw [h1, Nat.mul_add_div hp, h3, Nat.add_zero]
    rw [h2]
  · rw [if_neg hr]
    have hmul : p * (L / p + 1) = p * (L / p) + p := by ring
    have h1 : L + p - 1 = p * (L / p + 1) + (L % p - 1) := by omega
    have h3 : (L % p - 1) / p = 0 := Nat.div_eq_of_lt (by omega)
    have h2 : (L + p - 1) / p = L / p + 1 := by
      rw [h1, Nat.mul_add_div hp, h3, Nat.add_zero]
    rw [h2]

/-- Claim C3: the code does not reject a zero per_page before dividing; for
every chain and current_page, GetTransactionPage with per_page zero reaches
the integer division by zero in totalPageCount — a Go runtime panic,
modelled as none — instead of returning an input-validation error. -/
theorem c3_per_page_zero_panics :
    ∀ (chain : List Transaction) (currentPage : Nat),
      GetTransactionPage chain currentPage 0 = none := by
  intro chain currentPage
  unfold GetTransactionPage totalPageCount
  simp

/-- Claim C4 counterexample: with per_page and current_page both 2^32 on a
chain of length 25, the Go uint64 product wraps to 0, so the call returns
all 25 transactions — not the (empty) list of transactions starting at the
mathematical sequence p*c = 2^64 that the claim promises. -/
theorem c4_wrap_counterexample :
    GetTransactionPage chain25 (2 ^ 32) (2 ^ 32) = some ⟨1, chain25⟩ ∧
    chain25 ≠ (chain25.drop (2 ^ 32 * 2 ^ 32)).take (2 ^ 32) := by
  constructor
  · decide
  · intro hEq
    have hdrop : chain25.drop (2 ^ 32 * 2 ^ 32) = [] :=
      List.drop_eq_nil_of_le (by decide)
    rw [hdrop, List.take_nil] at hEq
    exact absurd hEq (by decide)

/-- Claim C4 (amended: the requested start sequence is the Go uint64
product (p*c) mod 2^64, which equals p*c whenever that product is below
2^64, as in the spec's example): for every chain, page and positive
per_page, the call reports ceil(length/p) as total_page_count and returns
the at-most-p transactions starting at sequence (p*c) mod 2^64. -/
theorem c4_pagination (chain : List Transaction) (c p : Nat) (hp : 0 < p) :
    GetTransactionPage chain c p =
      some ⟨(chain.length + p - 1) / p,
            (chain.drop ((p * c) % 2 ^ 64)).take p⟩ ∧
    ((chain.drop ((p * c) % 2 ^ 64)).take p).length ≤ p := by
  constructor
  · unfold GetTransactionPage GetTxsOfSeqRange
    rw [totalPageCount_eq_ceil _ _ hp]
  · rw [List.length_take]
    exact min_le_left _ _

theorem c4_pagination_witness :
    GetTransactionPage chain25 0 10 = some ⟨3, chain25.take 10⟩ :=
  (c4_pagination chain25 0 10 (by decide)).1.trans (by decide)

/-! ### Error kinds of the collaborator operations -/

theorem Verify_error_kinds (tx : Transaction) (unspent : Option Transaction)
    (pk : Nat) (e : Err) (h : tx.Verify unspent pk = .error e) :
    e = .unauthorizedCreation ∨ e = .staleReference ∨ e = .invalidSignature := by
  cases unspent with
  | none =>
    cases hg : tx.IsKittyGen pk with
    | true => simp [Transaction.Verify, hg] at h
    | false =>
      simp [Transaction.Verify, hg] at h
      exact Or.inl h.symm
  | some p =>
    cases hin : tx.In == p.Hash with
    | false =>
      simp [Transaction.Verify, hin] at h
      exact Or.inr (Or.inl h.symm)
    | true =>
      cases hs : sigValidUnder tx p.Out with
      | true => simp [Transaction.Verify, hin, hs] at h
      | false =>
        simp [Transaction.Verify, hin, hs] at h
        exact Or.inr (Or.inr h.symm)

theorem AddKitty_error_kind {s : StateDB} {h k o : Nat} {e : Err}
    (he : AddKitty s h k o = .error e) : e = .duplicateAsset := by
  unfold AddKitty at he
  split at he
  · cases he; rfl
  · cases he

theorem MoveKitty_error_kind {s : StateDB} {h k f t : Nat} {e : Err}
    (hm : MoveKitty s h k f t = .error e) : e = .staleOwnership := by
  unfold MoveKitty at hm
  split at hm
  · cases hm; rfl
  · split at hm
    · cases hm
    · cases hm; rfl

theorem GetTxOfHash_error_kind {chain : List Transaction} {h : Nat} {e : Err}
    (hf : GetTxOfHash chain h = .error e) : e = .notFound := by
  unfold GetTxOfHash at hf
  split at hf
  · cases hf
  · cases hf; rfl

/-! ### The transfer branch never dereferences a nil unspent pointer -/

theorem checkerCore_some_no_nil {pk : Nat} {st : StateDB} {tx u : Transaction} :
    (checkerCore pk st tx (some u)).2 ≠ .error Err.nilDeref := by
  unfold checkerCore
  split
  · next e hv =>
    rcases Verify_error_kinds _ _ _ _ hv with h | h | h <;> simp [h]
  · split
    · split
      · next e he => simp [AddKitty_error_kind he]
      · simp
    · split
      · next heq => simp at heq
      · next u' heq =>
        split
        · next e hm => simp [MoveKitty_error_kind hm]
        · simp

theorem checkerCore_none_no_nil {pk : Nat} {st : StateDB} {tx : Transaction} :
    (checkerCore pk st tx none).2 ≠ .error Err.nilDeref := by
  unfold checkerCore
  split
  · next e hv =>
    rcases Verify_error_kinds _ _ _ _ hv with h | h | h <;> simp [h]
  · next hv =>
    have hg : tx.IsKittyGen pk = true := by
      cases hgc : tx.IsKittyGen pk with
      | true => rfl
      | false => simp [Transaction.Verify, hgc] at hv
    simp only [hg, if_true]
    split
    · next e he => simp [AddKitty_error_kind he]
    · simp

/-- Claim C9: for every engine state and candidate transaction, the
transaction checker never reaches the nil dereference of the unspent
pointer in its transfer branch: verification against a None predecessor
only succeeds for a generation transaction, which takes the other branch. -/
theorem c9_no_nil_deref :
    ∀ (pk : Nat) (chain : List Transaction) (st : StateDB) (tx : Transaction),
      runChecker pk chain st tx ≠ .error Err.nilDeref := by
  intro pk chain st tx
  unfold runChecker MakeTxChecker
  split
  · exact checkerCore_none_no_nil
  · split
    · next e hf => simp [GetTxOfHash_error_kind hf]
    · exact checkerCore_some_no_nil

/-! ### Engine construction -/

theorem Prepare_ok_shape {cfg cfg' : BlockChainConfig}
    (h : Prepare cfg = .ok cfg') :
    cfg'.CreatorPK = cfg.CreatorPK ∧
    cfg'.TxAction = some (cfg.TxAction.getD noopTxAction) := by
  unfold Prepare at h
  split at h
  · next hta =>
    split at h
    · cases h
    · cases h
      rw [hta]
      exact ⟨rfl, rfl⟩
  · next a hta =>
    split at h
    · cases h
    · cases h
      rw [hta]
      exact ⟨rfl, rfl⟩

theorem Prepare_err_shape {cfg : BlockChainConfig} {e : Err}
    (h : PubKeyVerify cfg.CreatorPK = .error e) : Prepare cfg = .error e := by
  unfold Prepare
  split <;> rw [h]

/-- Claim C10: engine construction fails with no engine when the issuer
public key fails verification, and every constructed engine carries a
non-nil side-effect hook — a nil configured TxAction having been replaced
by the no-op hook during Prepare, before the dispatcher starts. -/
theorem c10_construction :
    ∀ (cfg : BlockChainConfig) (chain : List Transaction) (st : StateDB),
      (∀ e, PubKeyVerify cfg.CreatorPK = .error e →
        NewBlockChain cfg chain st = .error e) ∧
      (∀ eng, NewBlockChain cfg chain st = .ok eng →
        eng.c.TxAction.isSome = true) ∧
      (cfg.TxAction = none → ∀ eng, NewBlockChain cfg chain st = .ok eng →
        eng.c.TxAction = some noopTxAction) := by
  intro cfg chain st
  refine ⟨?_, ?_, ?_⟩
  · intro e he
    unfold NewBlockChain
    rw [Prepare_err_shape he]
  · intro eng heng
    unfold NewBlockChain at heng
    split at heng
    · cases heng
    · next cfg' hpre =>
      split at heng
      · cases heng
      · cases heng
        rw [(Prepare_ok_shape hpre).2]
        rfl
  · intro hta eng heng
    unfold NewBlockChain at heng
    split at heng
    · cases heng
    · next cfg' hpre =>
      split at heng
      · cases heng
      · cases heng
        rw [(Prepare_ok_shape hpre).2, hta]
        rfl

/-- The configuration with the malformed issuer key 0 and a nil hook. -/
def cfgBad : BlockChainConfig := ⟨0, none⟩

/-- A well-formed configuration with a nil hook. -/
def cfgGood : BlockChainConfig := ⟨5, none⟩

/-- The engine built from cfgGood on an empty log. -/
def engGood : Engine := ⟨⟨5, some noopTxAction⟩, [], emptyState⟩

theorem c10_construction_witness :
    NewBlockChain cfgBad [] emptyState = .error .invalidPubKey ∧
    engGood.c.TxAction = some noopTxAction :=
  ⟨(c10_construction cfgBad [] emptyState).1 .invalidPubKey rfl,
   (c10_construction cfgGood [] emptyState).2.2 rfl engGood rfl⟩

/-! ### The double-spend barrier (stale references) -/

theorem GetTxOfHash_ok_hash {chain : List Transaction} {H : Nat}
    {u : Transaction} (hf : GetTxOfHash chain H = .ok u) : u.Hash = H := by
  unfold GetTxOfHash at hf
  split at hf
  · next t hfind =>
    cases hf
    exact beq_iff_eq.mp (find?_pred (fun x => x.Hash == H) chain _ hfind)
  · cases hf

theorem Verify_ok_some {tx u : Transaction} {pk : Nat} {w : Unit}
    (h : tx.Verify (some u) pk = .ok w) :
    tx.In = u.Hash ∧ sigValidUnder tx u.Out = true := by
  cases hin : tx.In == u.Hash with
  | false => simp [Transaction.Verify, hin] at h
  | true =>
    refine ⟨beq_iff_eq.mp hin, ?_⟩
    cases hs : sigValidUnder tx u.Out with
    | false => simp [Transaction.Verify, hin, hs] at h
    | true => rfl

/-- What a successful checker run implies when the projection already has
an unspent record for the candidate's asset: the chain fetch succeeded
with a transaction of that hash, the candidate's input reference equals
the recorded unspent hash, and the asset's record was advanced to the
candidate's own hash and output. -/
theorem checker_ok_of_unspent_some {pk : Nat} {chain : List Transaction}
    {st : StateDB} {tx : Transaction} {st' : StateDB} {H : Nat}
    (hH : GetKittyUnspentTx st tx.KittyID = some H)
    (hok : runChecker pk chain st tx = .ok st') :
    ∃ u, GetTxOfHash chain H = .ok u ∧ u.Hash = H ∧ tx.In = H ∧
      GetKittyState st' tx.KittyID = some ⟨tx.Out, tx.Hash⟩ := by
  unfold runChecker MakeTxChecker at hok
  split at hok
  · next heq => rw [hH] at heq; cases heq
  · next h0 heq =>
    rw [hH] at heq
    injection heq with heqH
    subst heqH
    split at hok
    · simp at hok
    · next u hf =>
      have huH : u.Hash = H := GetTxOfHash_ok_hash hf
      unfold checkerCore at hok
      split at hok
      · simp at hok
      · next w hv =>
        have hin : tx.In = H := by rw [(Verify_ok_some hv).1, huH]
        have hks : ∃ ks, GetKittyState st tx.KittyID = some ks := by
          unfold GetKittyUnspentTx at hH
          cases hgks : GetKittyState st tx.KittyID with
          | none => rw [hgks] at hH; cases hH
          | some ks => exact ⟨ks, rfl⟩
        rcases hks with ⟨ks, hks⟩
        split at hok
        · -- generation branch is impossible: the asset already exists
          split at hok
          · simp at hok
          · next st'' hadd =>
            rw [AddKitty_err_of_present hks] at hadd
            cases hadd
        · -- transfer branch
          split at hok
          · next hnone => simp at hnone
          · next u' hequ =>
            injection hequ with hu'
            split at hok
            · simp at hok
            · next st'' hm =>
              simp only at hok
              cases hok
              exact ⟨u, hf, huH, hin, MoveKitty_ok_lookup hm⟩

/-- Claim C1: once a transfer T1 of asset A has been accepted and advanced
A's unspent pointer away from H, injecting a second transfer whose input
reference still equals H is rejected with the stale-reference error, and
the rejected injection leaves the engine — in particular A's owner and
unspent pointer — unchanged. -/
theorem c1_stale_second_transfer (bc bc' : BC) (T1 T2 : Transaction)
    (A H : Nat)
    (hH : GetKittyUnspentTx bc.state A = some H)
    (hT1 : InjectTx bc T1 = .ok bc')
    (hA1 : T1.KittyID = A) (hA2 : T2.KittyID = A) (hIn : T2.In = H) :
    InjectTx bc' T2 = .error Err.staleReference ∧
    applyInject bc' T2 = bc' ∧
    GetKittyUnspentTx bc'.state A = some T1.Hash := by
  rcases InjectTx_ok_elim hT1 with ⟨st', hchk, hbc'⟩
  rw [hA1.symm] at hH
  rcases checker_ok_of_unspent_some hH hchk with ⟨u, hf, huH, hin1, hnew⟩
  have hneq : T1.Hash ≠ H := by
    have hlt := In_lt_Hash T1
    omega
  have hup' : GetKittyUnspentTx bc'.state A = some T1.Hash := by
    rw [hbc']
    unfold GetKittyUnspentTx
    rw [← hA1]
    show (GetKittyState st' T1.KittyID).map (fun ks => ks.unspent) = _
    rw [hnew]
    rfl
  have hupst' : GetKittyUnspentTx st' T1.KittyID = some T1.Hash := by
    unfold GetKittyUnspentTx
    rw [hnew]
    rfl
  have hmem : T1 ∈ bc.chain ++ [T1] := by simp
  rcases find?_exists_of_mem (fun t => t.Hash == T1.Hash) (bc.chain ++ [T1])
    T1 hmem (by simp) with ⟨u', hfind⟩
  have hfu' : GetTxOfHash (bc.chain ++ [T1]) T1.Hash = .ok u' := by
    unfold GetTxOfHash
    rw [hfind]
  have hu'H : u'.Hash = T1.Hash :=
    beq_iff_eq.mp
      (find?_pred (fun t => t.Hash == T1.Hash) (bc.chain ++ [T1]) u' hfind)
  have hinb : (T2.In == u'.Hash) = false := by
    rw [hu'H, hIn]
    exact beq_eq_false_iff_ne.mpr (fun hc => hneq hc.symm)
  have hrej : InjectTx bc' T2 = .error Err.staleReference := by
    apply InjectTx_err_elim
    rw [hbc']
    show runChecker bc.pk (bc.chain ++ [T1]) st' T2 = .error .staleReference
    unfold runChecker MakeTxChecker
    have hA2' : T2.KittyID = T1.KittyID := by rw [hA2, hA1]
    simp only [hA2', hupst', hfu']
    unfold checkerCore
    simp [Transaction.Verify, hinb]
  refine ⟨hrej, ?_, hup'⟩
  unfold applyInject
  rw [hrej]

theorem c1_stale_second_transfer_witness :
    InjectTx bc2 tx2 = .error Err.staleReference ∧
    applyInject bc2 tx2 = bc2 ∧
    GetKittyUnspentTx bc2.state 1 = some tx1.Hash :=
  c1_stale_second_transfer bc1 bc2 tx1 tx2 1 txG.Hash (by rfl) (by rfl)
    rfl rfl rfl

/-! ### Injection verifies against exactly the projection's predecessor -/

theorem checkerCore_verify_err {pk : Nat} {st : StateDB} {tx : Transaction}
    {p : Option Transaction} {e : Err} (hv : tx.Verify p pk = .error e) :
    checkerCore pk st tx p = ([Ev.verify], .error e) := by
  unfold checkerCore
  rw [hv]

theorem checkerCore_ok_Verify {pk : Nat} {st : StateDB} {tx : Transaction}
    {p : Option Transaction} {st' : StateDB}
    (h : (checkerCore pk st tx p).2 = .ok st') : tx.Verify p pk = .ok () := by
  unfold checkerCore at h
  split at h
  · simp at h
  · next w hv => cases w; exact hv

/-- Claim C2: injection fetches the candidate asset's unspent predecessor
(from the projection's recorded hash, resolved in the chain log; None when
the asset has no record) and verifies the candidate against exactly that
predecessor and the issuer key: a failing fetch or failing verification is
returned as the injection's error with no append and no projection change,
and a successful injection implies verification succeeded against that
fetched predecessor. -/
theorem c2_inject_verifies_predecessor :
    ∀ (bc : BC) (tx : Transaction),
      (∀ e, unspentPredecessor bc tx.KittyID = .error e →
        InjectTx bc tx = .error e) ∧
      (∀ p e, unspentPredecessor bc tx.KittyID = .ok p →
        tx.Verify p bc.pk = .error e →
          InjectTx bc tx = .error e ∧
          Ev.append ∉ (InjectTxTr bc tx).1 ∧
          Ev.applyProj ∉ (InjectTxTr bc tx).1) ∧
      (∀ bc', InjectTx bc tx = .ok bc' →
        ∃ p, unspentPredecessor bc tx.KittyID = .ok p ∧
          tx.Verify p bc.pk = .ok ()) := by
  intro bc tx
  refine ⟨?_, ?_, ?_⟩
  · intro e hup
    unfold unspentPredecessor at hup
    split at hup
    · cases hup
    · next h0 hl =>
      split at hup
      · next e' hf =>
        cases hup
        apply InjectTx_err_elim
        unfold runChecker MakeTxChecker
        simp only [hl, hf]
      · cases hup
  · intro p e hup hv
    have hmk : MakeTxChecker bc.pk bc.chain bc.state tx = ([Ev.verify], .error e) := by
      unfold unspentPredecessor at hup
      unfold MakeTxChecker
      split at hup
      · next hl =>
        cases hup
        exact checkerCore_verify_err hv
      · next h0 hl =>
        split at hup
        · cases hup
        · next u hf =>
          cases hup
          exact checkerCore_verify_err hv
    refine ⟨?_, ?_, ?_⟩
    · exact InjectTx_err_elim (by rw [runChecker, hmk])
    · unfold InjectTxTr AddTx
      rw [hmk]
      show Ev.append ∉ [Ev.verify]
      decide
    · unfold InjectTxTr AddTx
      rw [hmk]
      show Ev.applyProj ∉ [Ev.verify]
      decide
  · intro bc' hok
    rcases InjectTx_ok_elim hok with ⟨st', hchk, _⟩
    unfold runChecker MakeTxChecker at hchk
    unfold unspentPredecessor
    split at hchk
    · exact ⟨none, rfl, checkerCore_ok_Verify hchk⟩
    · next h0 hl =>
      split at hchk
      · simp at hchk
      · next u hf =>
        exact ⟨some u, rfl, checkerCore_ok_Verify hchk⟩

theorem c2_inject_verifies_predecessor_witness :
    InjectTx bc2 tx2 = .error Err.staleReference ∧
    Ev.append ∉ (InjectTxTr bc2 tx2).1 ∧
    Ev.applyProj ∉ (InjectTxTr bc2 tx2).1 :=
  (c2_inject_verifies_predecessor bc2 tx2).2.1 (some tx1) Err.staleReference
    (by rfl) (by rfl)

/-! ### Startup replay -/

theorem replayList_append (pk : Nat) (chain : List Transaction) :
    ∀ (l₁ l₂ : List Transaction) (st s₁ : StateDB),
      replayList pk chain st l₁ = .ok s₁ →
      replayList pk chain st (l₁ ++ l₂) = replayList pk chain s₁ l₂ := by
  intro l₁
  induction l₁ with
  | nil =>
    intro l₂ st s₁ h
    cases h
    rw [List.nil_append]
  | cons t r ih =>
    intro l₂ st s₁ h
    rw [List.cons_append, replayList]
    rw [replayList] at h
    split at h
    · cases h
    · next st2 hc =>
      exact ih l₂ st2 s₁ h

/-- Claim C5: startup replay runs the checker over the chain log from
sequence 1 to length-1 in order; a log of length at most 1 replays
vacuously; a prepared engine whose replay fails is not constructed (the
error propagates out of NewBlockChain); and a failure at any position of
the log — after any successfully replayed prefix — is the replay's result,
never skipped. -/
theorem c5_replay_fatal_startup :
    (∀ (pk : Nat) (chain : List Transaction) (st : StateDB),
      chain.length ≤ 1 → InitState pk chain st = .ok st) ∧
    (∀ (cfg : BlockChainConfig) (chain : List Transaction) (st : StateDB)
      (cfg' : BlockChainConfig) (e : Err),
      Prepare cfg = .ok cfg' →
      InitState cfg'.CreatorPK chain st = .error e →
      NewBlockChain cfg chain st = .error e) ∧
    (∀ (pk : Nat) (chain : List Transaction) (st s₁ : StateDB)
      (l₁ l₂ : List Transaction) (t : Transaction) (e : Err),
      chain.drop 1 = l₁ ++ t :: l₂ →
      replayList pk chain st l₁ = .ok s₁ →
      runChecker pk chain s₁ t = .error e →
      InitState pk chain st = .error e) := by
  refine ⟨?_, ?_, ?_⟩
  · intro pk chain st hlen
    unfold InitState
    rw [List.drop_eq_nil_of_le hlen]
    rfl
  · intro cfg chain st cfg' e hpre hinit
    unfold NewBlockChain
    simp only [hpre, hinit]
  · intro pk chain st s₁ l₁ l₂ t e hdrop hrep hchk
    unfold InitState
    rw [hdrop, replayList_append pk chain l₁ (t :: l₂) st s₁ hrep,
      replayList]
    simp only [hchk]

/-- A chain whose second entry fails verification during replay. -/
def chainBad : List Transaction := [txG, txBad]

theorem c5_replay_fatal_startup_witness :
    InitState 5 [txG] emptyState = .ok emptyState ∧
    NewBlockChain cfgGood chainBad emptyState = .error .unauthorizedCreation ∧
    InitState 5 chainBad emptyState = .error .unauthorizedCreation :=
  ⟨c5_replay_fatal_startup.1 5 [txG] emptyState (by decide),
   c5_replay_fatal_startup.2.1 cfgGood chainBad emptyState
     ⟨5, some noopTxAction⟩ .unauthorizedCreation (by rfl) (by rfl),
   c5_replay_fatal_startup.2.2 5 chainBad emptyState emptyState [] [] txBad
     .unauthorizedCreation rfl rfl (by rfl)⟩

/-! ### Replay versus sequential injection -/

theorem runChecker_mono {pk : Nat} {c : List Transaction}
    (d : List Transaction) {st : StateDB} {tx : Transaction} {st' : StateDB}
    (h : runChecker pk c st tx = .ok st') :
    runChecker pk (c ++ d) st tx = .ok st' := by
  unfold runChecker MakeTxChecker at h ⊢
  split at h
  · exact h
  · next h0 hl =>
    split at h
    · simp at h
    · next u hf =>
      have hfd : GetTxOfHash (c ++ d) h0 = .ok u := by
        unfold GetTxOfHash at hf ⊢
        split at hf
        · next t hfind =>
          cases hf
          rw [find?_append_left _ _ d _ hfind]
        · cases hf
      simp only [hfd]
      exact h

theorem injectAll_shape : ∀ (txs : List Transaction) (bc bc' : BC),
    injectAll bc txs = .ok bc' →
    bc'.pk = bc.pk ∧ bc'.chain = bc.chain ++ txs := by
  intro txs
  induction txs with
  | nil =>
    intro bc bc' h
    cases h
    exact ⟨rfl, by simp⟩
  | cons t r ih =>
    intro bc bc' h
    rw [injectAll] at h
    split at h
    · cases h
    · next bc₁ hinj =>
      rcases ih bc₁ bc' h with ⟨hpk, hchain⟩
      rcases InjectTx_ok_elim hinj with ⟨st', _, hbc₁⟩
      subst hbc₁
      refine ⟨hpk, ?_⟩
      rw [hchain]
      simp

/-- Replaying the injected transactions against the final chain from the
initial projection reproduces the final projection: each injection-time
checker run agrees with its replay-time run because the chain only grew. -/
theorem replay_of_injectAll : ∀ (txs : List Transaction) (bc bc' : BC),
    injectAll bc txs = .ok bc' →
    replayList bc.pk bc'.chain bc.state txs = .ok bc'.state := by
  intro txs
  induction txs with
  | nil =>
    intro bc bc' h
    cases h
    rfl
  | cons t r ih =>
    intro bc bc' h
    rw [injectAll] at h
    split at h
    · cases h
    · next bc₁ hinj =>
      rcases InjectTx_ok_elim hinj with ⟨s₁, hchk, hbc₁⟩
      have hrest := ih bc₁ bc' h
      rcases injectAll_shape r bc₁ bc' h with ⟨hpk, hchain⟩
      subst hbc₁
      have hch : bc'.chain = bc.chain ++ (t :: r) := by
        rw [hchain]
        simp
      rw [replayList]
      have hmono : runChecker bc.pk bc'.chain bc.state t = .ok s₁ := by
        rw [hch]
        exact runChecker_mono (t :: r) hchk
      simp only [hmono]
      exact hrest

/-- Claim C6 counterexample: injecting a single valid creation into an
initially empty engine puts it at sequence 0, which InitState then skips —
replaying the resulting one-entry log from an empty projection yields the
empty projection, which disagrees with the injection-built projection on
kitty 1's owner and unspent hash. -/
theorem c6_replay_counterexample :
    injectAll bc0 [txG] = .ok bc1 ∧
    InitState 5 bc1.chain emptyState = .ok emptyState ∧
    GetKittyState bc1.state 1 ≠ GetKittyState emptyState 1 :=
  ⟨by rfl, by rfl, by decide⟩

/-- Claim C6 (amended: replay reproduces the injection-built projection
for the transactions at sequences 1 and above, i.e. when the engine's
chain log already holds a (skipped) sequence-0 entry before the
injections; the sequence-0 entry of a log built from a completely empty
engine is skipped by InitState, per the counterexample): replaying the
log of a fully accepted injection run from the empty projection yields a
projection with the same owner and unspent hash for every asset. -/
theorem c6_replay_amended (pk : Nat) (g : Transaction)
    (txs : List Transaction) (bc' : BC)
    (h : injectAll ⟨pk, [g], emptyState⟩ txs = .ok bc') :
    ∃ S, InitState pk bc'.chain emptyState = .ok S ∧
      ∀ k, GetKittyState S k = GetKittyState bc'.state k := by
  have hrep := replay_of_injectAll txs ⟨pk, [g], emptyState⟩ bc' h
  rcases injectAll_shape txs ⟨pk, [g], emptyState⟩ bc' h with ⟨hpk, hchain⟩
  refine ⟨bc'.state, ?_, fun k => rfl⟩
  unfold InitState
  have hdrop : bc'.chain.drop 1 = txs := by
    rw [hchain]
    rfl
  rw [hdrop]
  exact hrep

/-- A placeholder genesis marker occupying sequence 0. -/
def g0 : Transaction := ⟨0, 0, 0, 0⟩

/-- A creation of kitty 2 to address 7, signed by issuer 5. -/
def txGen2 : Transaction := signTx 5 2 0 7

/-- The engine after injecting txGen2 on top of the genesis marker. -/
def bcM1 : BC := ⟨5, [g0, txGen2], ⟨[(2, ⟨7, txGen2.Hash⟩)], [(7, [2])]⟩⟩

theorem c6_replay_amended_witness :
    ∃ S, InitState 5 bcM1.chain emptyState = .ok S ∧
      ∀ k, GetKittyState S k = GetKittyState bcM1.state k :=
  c6_replay_amended 5 g0 [txGen2] bcM1 (by rfl)

/-! ### Ordering of projection application and physical append -/

theorem checkerCore_shape (pk : Nat) (st : StateDB) (tx : Transaction)
    (p : Option Transaction) :
    (∃ e, checkerCore pk st tx p = ([Ev.verify], .error e)) ∨
    (∃ st', checkerCore pk st tx p = ([Ev.verify, Ev.applyProj], .ok st')) := by
  unfold checkerCore
  split
  · exact Or.inl ⟨_, rfl⟩
  · split
    · split
      · exact Or.inl ⟨_, rfl⟩
      · exact Or.inr ⟨_, rfl⟩
    · split
      · exact Or.inl ⟨_, rfl⟩
      · split
        · exact Or.inl ⟨_, rfl⟩
        · exact Or.inr ⟨_, rfl⟩

theorem MakeTxChecker_shape (pk : Nat) (chain : List Transaction)
    (st : StateDB) (tx : Transaction) :
    (∃ e, MakeTxChecker pk chain st tx = ([], .error e)) ∨
    (∃ e, MakeTxChecker pk chain st tx = ([Ev.verify], .error e)) ∨
    (∃ st', MakeTxChecker pk chain st tx =
      ([Ev.verify, Ev.applyProj], .ok st')) := by
  unfold MakeTxChecker
  split
  · rcases checkerCore_shape pk st tx none with ⟨e, h⟩ | ⟨st', h⟩
    · exact Or.inr (Or.inl ⟨e, h⟩)
    · exact Or.inr (Or.inr ⟨st', h⟩)
  · split
    · exact Or.inl ⟨_, rfl⟩
    · next u hf =>
      rcases checkerCore_shape pk st tx (some u) with ⟨e, h⟩ | ⟨st', h⟩
      · exact Or.inr (Or.inl ⟨e, h⟩)
      · exact Or.inr (Or.inr ⟨st', h⟩)

/-- Claim C7 counterexample: a successful injection's event trace applies
the projection before the physical append — the projection application at
position 1 of the trace is not preceded by any append event, refuting the
claim that the projection is applied only after the append. -/
theorem c7_order_counterexample :
    InjectTxTr bc0 txG = ([Ev.verify, Ev.applyProj, Ev.append], .ok bc1) ∧
    ¬ projOnlyAfterAppend (InjectTxTr bc0 txG).1 := by
  constructor
  · rfl
  · intro hclaim
    have hmem := hclaim [Ev.verify] Ev.applyProj [Ev.append] (by rfl) rfl
    simp at hmem

/-- Claim C7 (amended: the projection is applied inside the chain log's
validation hook, after verification succeeds but before the physical
append): a successful injection appends exactly the candidate and its
trace is verify, then projection application, then append; a rejected
injection performs no append and no projection application and leaves the
engine unchanged. -/
theorem c7_hook_order_amended :
    ∀ (bc : BC) (tx : Transaction),
      (∀ bc', InjectTx bc tx = .ok bc' →
        bc'.chain = bc.chain ++ [tx] ∧
        (InjectTxTr bc tx).1 = [Ev.verify, Ev.applyProj, Ev.append]) ∧
      (∀ e, InjectTx bc tx = .error e →
        Ev.append ∉ (InjectTxTr bc tx).1 ∧
        Ev.applyProj ∉ (InjectTxTr bc tx).1 ∧
        applyInject bc tx = bc) := by
  intro bc tx
  constructor
  · intro bc' hok
    rcases MakeTxChecker_shape bc.pk bc.chain bc.state tx with
      ⟨e, hm⟩ | ⟨e, hm⟩ | ⟨st', hm⟩
    · exfalso
      rw [InjectTx, InjectTxTr, AddTx, hm] at hok
      simp at hok
    · exfalso
      rw [InjectTx, InjectTxTr, AddTx, hm] at hok
      simp at hok
    · have hok' : bc' = ⟨bc.pk, bc.chain ++ [tx], st'⟩ := by
        rw [InjectTx, InjectTxTr, AddTx, hm] at hok
        simp at hok
        exact hok.symm
      constructor
      · rw [hok']
      · rw [InjectTxTr, AddTx, hm]
        rfl
  · intro e herr
    have happ : applyInject bc tx = bc := by
      unfold applyInject
      rw [herr]
    rcases MakeTxChecker_shape bc.pk bc.chain bc.state tx with
      ⟨e', hm⟩ | ⟨e', hm⟩ | ⟨st', hm⟩
    · refine ⟨?_, ?_, happ⟩
      · rw [InjectTxTr, AddTx, hm]
        show Ev.append ∉ ([] : List Ev)
        decide
      · rw [InjectTxTr, AddTx, hm]
        show Ev.applyProj ∉ ([] : List Ev)
        decide
    · refine ⟨?_, ?_, happ⟩
      · rw [InjectTxTr, AddTx, hm]
        show Ev.append ∉ [Ev.verify]
        decide
      · rw [InjectTxTr, AddTx, hm]
        show Ev.applyProj ∉ [Ev.verify]
        decide
    · exfalso
      rw [InjectTx, InjectTxTr, AddTx, hm] at herr
      simp at herr

theorem c7_hook_order_amended_witness :
    bc1.chain = bc0.chain ++ [txG] ∧
    (InjectTxTr bc0 txG).1 = [Ev.verify, Ev.applyProj, Ev.append] ∧
    Ev.append ∉ (InjectTxTr bc0 txBad).1 ∧
    applyInject bc0 txBad = bc0 :=
  ⟨((c7_hook_order_amended bc0 txG).1 bc1 (by rfl)).1,
   ((c7_hook_order_amended bc0 txG).1 bc1 (by rfl)).2,
   ((c7_hook_order_amended bc0 txBad).2 .unauthorizedCreation (by rfl)).1,
   ((c7_hook_order_amended bc0 txBad).2 .unauthorizedCreation (by rfl)).2.2⟩

/-! ### Shutdown and the background dispatcher -/

/-- Claim C8 counterexample: Close returns immediately after closing the
quit channel, with the dispatcher not yet finished, and an already-queued
commit notification can still be processed by a dispatcher step taken
after Close has returned. -/
theorem c8_close_counterexample :
    (CloseBC ⟨false, false, [txG]⟩).returned = false ∧
    DispStep (CloseBC ⟨false, false, [txG]⟩) ⟨true, false, []⟩ :=
  ⟨rfl, DispStep.recv txG [] rfl rfl⟩

/-- Claim C8 (amended: Close signals the dispatcher to stop by closing the
quit channel and returns immediately, without waiting for the dispatcher
task — the WaitGroup is never waited on; the dispatcher exits only when it
subsequently selects the quit branch, and a pending commit notification
may still be processed after Close returns). -/
theorem c8_close_amended :
    ∀ (s : DispState),
      (CloseBC s).quitClosed = true ∧
      (CloseBC s).returned = s.returned ∧
      (s.returned = false → DispStep (CloseBC s) ⟨true, true, s.pending⟩) ∧
      (∀ t rest, s.returned = false → s.pending = t :: rest →
        DispStep (CloseBC s) ⟨true, s.returned, rest⟩) := by
  intro s
  refine ⟨rfl, rfl, ?_, ?_⟩
  · intro hr
    exact DispStep.quit hr rfl
  · intro t rest hr hp
    exact DispStep.recv t rest hr hp

theorem c8_close_amended_witness :
    (CloseBC ⟨false, false, [txBad]⟩).quitClosed = true ∧
    DispStep (CloseBC ⟨false, false, [txBad]⟩) ⟨true, false, []⟩ :=
  ⟨(c8_close_amended ⟨false, false, [txBad]⟩).1,
   (c8_close_amended ⟨false, false, [txBad]⟩).2.2.2 txBad [] rfl rfl⟩
